import Mathlib

/-!
Shallow embedding of the `rustore` single-file append-only key-value store
(`src/lib.rs`) and proofs about it.

Modelling conventions:
* Bytes are `Nat` (always `< 256` for engine-produced data); a file is a
  `List Nat`; machine integers are `Nat` with explicit `% 4294967296` (2^32)
  where the source wraps a `usize` into a `u32`.
* A Rust `String` is represented by its UTF-8 byte list (`List Nat`); the
  partial function `String::from_utf8` is modelled by `fromUtf8`, which
  succeeds exactly on byte lists satisfying the RFC 3629 UTF-8 validity
  predicate that Rust's `std::str` implements.
* `pread`/`pwrite`-style positional file I/O (`FileExt::read_at` /
  `FileExt::write_at` on a regular file) is modelled by `readAt`/`writeAt`
  on the byte list.  Both read buffers in the source (`[0u8; Header::SIZE]`
  in `get`/`delete`, `vec![0u8; entry_size]` in `load_index`) are freshly
  zero-initialized, so a read reaching past end of file leaves zeros in the
  unread tail: `readAt` zero-pads accordingly.
* `Entry::from_bytes` calls `.unwrap()` on the two `String::from_utf8`
  results, so on non-UTF-8 key or value bytes the source panics; the model
  returns `Option Entry` with `none` standing for that panic/abort.
* `Header::SIZE` is `std::mem::size_of::<Header>()`.  `Header` holds four
  `u32` fields and one `bool`, so its payload is 17 bytes, its alignment
  is 4, and its Rust size is 20: three bytes of padding.  `to_bytes`
  fills a zeroed `[u8; 20]` and writes only indices 0..17, so serialized
  headers are 20 bytes whose last three bytes are always zero, and every
  on-disk record occupies 20 + key_size + value_size bytes.
-/

namespace Rustore

/-- Little-endian serialization of a `u32` (`u32::to_le_bytes`); values `≥ 2^32`
are wrapped as the `as u32` cast does. -/
def u32le (n : Nat) : List Nat :=
  [n % 256, n / 256 % 256, n / 65536 % 256, n / 16777216 % 256]

/-- Little-endian deserialization of a `u32` from four bytes of `b` starting at
index `i` (`u32::from_le_bytes`); out-of-range indices read as 0. -/
def u32de (b : List Nat) (i : Nat) : Nat :=
  b.getD i 0 + 256 * b.getD (i + 1) 0 + 65536 * b.getD (i + 2) 0
    + 16777216 * b.getD (i + 3) 0

/-- RFC 3629 UTF-8 validity, the check performed by Rust's
`String::from_utf8`, as the table-driven automaton `std` uses: the first
argument is the list of `(lo, hi)` ranges the next bytes must fall in to
finish the current multi-byte sequence.  Lead bytes: 1-byte `00..7F`;
2-byte `C2..DF`; 3-byte `E0` (second byte `A0..BF`), `E1..EC`/`EE`/`EF`
(second `80..BF`), `ED` (second `80..9F`, excluding surrogates); 4-byte
`F0` (second `90..BF`), `F1..F3` (second `80..BF`), `F4` (second `80..8F`,
up to `U+10FFFF`); continuation bytes otherwise `80..BF`. -/
def isValidUTF8From : List (Nat × Nat) → List Nat → Bool
  | [], [] => true
  | _ :: _, [] => false
  | (lo, hi) :: exp, b :: l => (lo ≤ b && b ≤ hi) && isValidUTF8From exp l
  | [], b :: l =>
    if b ≤ 0x7F then isValidUTF8From [] l
    else if 0xC2 ≤ b && b ≤ 0xDF then
      isValidUTF8From [(0x80, 0xBF)] l
    else if b = 0xE0 then
      isValidUTF8From [(0xA0, 0xBF), (0x80, 0xBF)] l
    else if (0xE1 ≤ b && b ≤ 0xEC) || b = 0xEE || b = 0xEF then
      isValidUTF8From [(0x80, 0xBF), (0x80, 0xBF)] l
    else if b = 0xED then
      isValidUTF8From [(0x80, 0x9F), (0x80, 0xBF)] l
    else if b = 0xF0 then
      isValidUTF8From [(0x90, 0xBF), (0x80, 0xBF), (0x80, 0xBF)] l
    else if 0xF1 ≤ b && b ≤ 0xF3 then
      isValidUTF8From [(0x80, 0xBF), (0x80, 0xBF), (0x80, 0xBF)] l
    else if b = 0xF4 then
      isValidUTF8From [(0x80, 0x8F), (0x80, 0xBF), (0x80, 0xBF)] l
    else false

/-- UTF-8 validity of a whole byte list. -/
def isValidUTF8 (l : List Nat) : Bool := isValidUTF8From [] l

/-- `String::from_utf8`: succeeds exactly on valid UTF-8, and since strings are
represented by their byte lists, it returns the bytes themselves. -/
def fromUtf8 (b : List Nat) : Option (List Nat) :=
  if isValidUTF8 b then some b else none

/-- The `Header` struct of `src/lib.rs` (`u32` fields as bounded `Nat`). -/
structure Header where
  checksum : Nat
  timestamp : Nat
  is_deleted : Bool
  key_size : Nat
  value_size : Nat
deriving DecidableEq

/-- `Header::SIZE = std::mem::size_of::<Header>()`: 17 bytes of fields padded
to alignment 4, hence 20. -/
def Header.SIZE : Nat := 20

/-- The `u32` fields of a `Header` are in range (automatic in Rust, explicit
here because the model stores them as `Nat`). -/
def Header.wf (h : Header) : Prop :=
  h.checksum < 4294967296 ∧ h.timestamp < 4294967296 ∧
    h.key_size < 4294967296 ∧ h.value_size < 4294967296

instance (h : Header) : Decidable (Header.wf h) := by
  unfold Header.wf; infer_instance

/-- `Header::to_bytes`: a zeroed `[u8; 20]` whose indices 0..17 are filled
little-endian in declared field order; indices 17..20 keep their zeros. -/
def Header.toBytes (h : Header) : List Nat :=
  u32le h.checksum ++ (u32le h.timestamp ++ ([if h.is_deleted then 1 else 0] ++
    (u32le h.key_size ++ (u32le h.value_size ++ [0, 0, 0]))))

/-- `Header::from_bytes`: reads the five fields back from indices 0..17 of a
20-byte array (indices 17..20 are ignored); `is_deleted` is `bytes[8] != 0`. -/
def Header.fromBytes (b : List Nat) : Header :=
  { checksum := u32de b 0
    timestamp := u32de b 4
    is_deleted := decide (b.getD 8 0 ≠ 0)
    key_size := u32de b 9
    value_size := u32de b 13 }

/-- The `Entry` struct of `src/lib.rs` (strings as UTF-8 byte lists). -/
structure Entry where
  header : Header
  key : List Nat
  value : List Nat
deriving DecidableEq

/-- `Entry::to_bytes`: header bytes, then key bytes, then value bytes. -/
def Entry.toBytes (e : Entry) : List Nat :=
  e.header.toBytes ++ (e.key ++ e.value)

/-- `Entry::from_bytes`: decodes the header from the first `Header::SIZE`
bytes, slices the key (`key_size` bytes) and the value (all remaining bytes),
and runs `String::from_utf8(..).unwrap()` on both; `none` models the panic of
`unwrap` on non-UTF-8 bytes. -/
def Entry.fromBytes (bytes : List Nat) : Option Entry :=
  let header := Header.fromBytes (bytes.take Header.SIZE)
  match fromUtf8 ((bytes.drop Header.SIZE).take header.key_size),
      fromUtf8 (bytes.drop (Header.SIZE + header.key_size)) with
  | some k, some v => some ⟨header, k, v⟩
  | _, _ => none

/-- Modelled from the spec, for comparison with `Entry.fromBytes` only: the
decoder the spec describes, which "fails with a decoding error" (the
InvalidData kind) on non-UTF-8 key or value bytes instead of aborting. -/
def Entry.fromBytesSpec (bytes : List Nat) : Except Unit Entry :=
  let header := Header.fromBytes (bytes.take Header.SIZE)
  match fromUtf8 ((bytes.drop Header.SIZE).take header.key_size),
      fromUtf8 (bytes.drop (Header.SIZE + header.key_size)) with
  | some k, some v => Except.ok ⟨header, k, v⟩
  | _, _ => Except.error ()

/-- `FileExt::read_at` into a fresh zero-initialized buffer of size `n`: the
available bytes at `offset`, zero-padded to length `n` past end of file. -/
def readAt (file : List Nat) (offset n : Nat) : List Nat :=
  (file.drop offset).take n ++ List.replicate (n - (file.length - offset)) 0

/-- `FileExt::write_at`: overwrite `data.length` bytes starting at `offset`,
extending the file (zero-filling any gap) as a POSIX positional write does. -/
def writeAt (file : List Nat) (offset : Nat) (data : List Nat) : List Nat :=
  file.take offset ++ (List.replicate (offset - file.length) 0 ++
    (data ++ file.drop (offset + data.length)))

/-- Error outcomes of the engine API that the claims exercise:
`notFound` is `Error::NotFound` / `std::io::ErrorKind::NotFound`,
`invalidData` is `std::io::ErrorKind::InvalidData`.  (`Error::Io` wrapping
other platform failures cannot occur in the model, where file operations on
the in-memory byte list always succeed.) -/
inductive Err where
  | notFound
  | invalidData
deriving DecidableEq

instance {ε α : Type} [DecidableEq ε] [DecidableEq α] :
    DecidableEq (Except ε α) := fun x y =>
  match x, y with
  | Except.ok a, Except.ok b =>
    if h : a = b then isTrue (by rw [h])
    else isFalse (fun hc => h (Except.ok.injEq a b ▸ hc))
  | Except.ok _, Except.error _ => isFalse (fun hc => Except.noConfusion hc)
  | Except.error _, Except.ok _ => isFalse (fun hc => Except.noConfusion hc)
  | Except.error e, Except.error f =>
    if h : e = f then isTrue (by rw [h])
    else isFalse (fun hc => h (Except.error.injEq e f ▸ hc))

/-- The `Database` struct: the open file's contents and the in-memory index.
The `path` field is dropped (it is never consulted after `open`).  The
`HashMap<String, u64>` index is modelled as an association list where
`insert` prepends, lookup takes the first match, and `remove` filters —
observationally the map operations of the source. -/
structure Database where
  file : List Nat
  index : List (List Nat × Nat)
deriving DecidableEq

/-- `HashMap::get` on the association-list model: first match wins. -/
def lookupIdx : List (List Nat × Nat) → List Nat → Option Nat
  | [], _ => none
  | (k', o) :: rest, k => if k' = k then some o else lookupIdx rest k

/-- `HashMap::insert`: the new binding shadows any previous one. -/
def insertIdx (idx : List (List Nat × Nat)) (k : List Nat) (o : Nat) :
    List (List Nat × Nat) :=
  (k, o) :: idx

/-- `HashMap::remove`: drop every binding for `k`. -/
def removeIdx (idx : List (List Nat × Nat)) (k : List Nat) :
    List (List Nat × Nat) :=
  idx.filter (fun p => decide (p.1 ≠ k))

/-- `Database::get`: index lookup (miss is NotFound), read the header at the
stored offset, read `value_size` bytes at `offset + key_size + Header::SIZE`,
and decode them as UTF-8 (failure is InvalidData).  The `is_deleted` flag of
the header that was just read is never consulted. -/
def Database.get (db : Database) (key : List Nat) : Except Err (List Nat) :=
  match lookupIdx db.index key with
  | some offset =>
    let header := Header.fromBytes (readAt db.file offset Header.SIZE)
    let valueBytes := readAt db.file (offset + header.key_size + Header.SIZE)
      header.value_size
    match fromUtf8 valueBytes with
    | some v => Except.ok v
    | none => Except.error Err.invalidData
  | none => Except.error Err.notFound

/-- `Database::put`: build a fresh record (`checksum = 0`, `timestamp = 0`,
`is_deleted = false`, sizes from `len() as u32`), write its bytes at the
current end of file (`metadata().len()`), and update the index to the offset
just written.  I/O cannot fail in the model, so the `Result` is dropped. -/
def Database.put (db : Database) (key value : List Nat) : Database :=
  let header : Header :=
    ⟨0, 0, false, key.length % 4294967296, value.length % 4294967296⟩
  let entry : Entry := ⟨header, key, value⟩
  let entryBytes := entry.toBytes
  let offset := db.file.length
  ⟨writeAt db.file offset entryBytes, insertIdx db.index key offset⟩

/-- `Database::delete`: index lookup (miss is NotFound and the state is
untouched); on a hit, read the header at the offset, set `is_deleted`,
write the re-serialized header back at the same offset, and remove the key
from the index.  Returned as (result, state after the call on `&mut self`). -/
def Database.delete (db : Database) (key : List Nat) :
    Except Err Unit × Database :=
  match lookupIdx db.index key with
  | some offset =>
    let header := Header.fromBytes (readAt db.file offset Header.SIZE)
    let header' := { header with is_deleted := true }
    (Except.ok (),
      ⟨writeAt db.file offset header'.toBytes, removeIdx db.index key⟩)
  | none => (Except.error Err.notFound, db)

/-- `Database::close`: `sync_all` flushes to durable storage; the logical
state is unchanged. -/
def Database.close (db : Database) : Database := db

/-- The replay loop of `Database::load_index`: starting at `offset`, a read of
0 bytes (i.e. `offset ≥ file.length` on a regular file) ends the loop;
otherwise the header is decoded, the whole record of
`Header::SIZE + key_size + value_size` bytes is read and decoded by
`Entry::from_bytes` (whose `unwrap` panic propagates as `none`), the key is
inserted at the current offset — deleted or not — and the cursor advances by
the record length. -/
def loadIndexFrom (file : List Nat) (offset : Nat)
    (idx : List (List Nat × Nat)) : Option (List (List Nat × Nat)) :=
  if _h : offset < file.length then
    let header := Header.fromBytes (readAt file offset Header.SIZE)
    let entrySize := Header.SIZE + header.key_size + header.value_size
    match Entry.fromBytes (readAt file offset entrySize) with
    | some entry => loadIndexFrom file (offset + entrySize)
        (insertIdx idx entry.key offset)
    | none => none
  else some idx
termination_by file.length - offset
decreasing_by simp only [Header.SIZE]; omega

/-- `Database::open` on an existing file with the given contents: replay the
log from offset 0 with an empty index. -/
def Database.openDb (file : List Nat) : Option Database :=
  match loadIndexFrom file 0 [] with
  | some idx => some ⟨file, idx⟩
  | none => none

/-- A logical record as the engine writes it (`checksum` and `timestamp` are
always 0 in every record the engine produces). -/
structure Rec where
  is_deleted : Bool
  key : List Nat
  value : List Nat
deriving DecidableEq

/-- The header the engine attaches to a record. -/
def Rec.header (r : Rec) : Header :=
  ⟨0, 0, r.is_deleted, r.key.length % 4294967296, r.value.length % 4294967296⟩

/-- The on-disk bytes of a record: header, key, value. -/
def Rec.encode (r : Rec) : List Nat :=
  (Rec.header r).toBytes ++ (r.key ++ r.value)

/-- A log file as a concatenation of records in write order. -/
def encodeLog (rs : List Rec) : List Nat :=
  (rs.map Rec.encode).flatten

/-- A record the engine can actually have written: UTF-8 key and value whose
byte lengths fit in a `u32`. -/
def Rec.wf (r : Rec) : Prop :=
  isValidUTF8 r.key = true ∧ isValidUTF8 r.value = true ∧
    r.key.length < 4294967296 ∧ r.value.length < 4294967296

instance (r : Rec) : Decidable (Rec.wf r) := by
  unfold Rec.wf; infer_instance

/-- Reference description of what replay accumulates: one index insertion per
record, offsets advancing by each record's encoded length. -/
def replayFrom : List Rec → Nat → List (List Nat × Nat) →
    List (List Nat × Nat)
  | [], _, idx => idx
  | r :: rs, o, idx =>
    replayFrom rs (o + (Rec.encode r).length) (insertIdx idx r.key o)

/-- The last record in `rs` whose key is `k`, together with its offset
(offsets counted from base `o`). -/
def lastFind : List Rec → Nat → List Nat → Option (Nat × Rec)
  | [], _, _ => none
  | r :: rs, o, k =>
    match lastFind rs (o + (Rec.encode r).length) k with
    | some p => some p
    | none => if r.key = k then some (o, r) else none

/-! ### Helper lemmas -/

lemma u32_le_de (n : Nat) (hn : n < 4294967296) :
    n % 256 + 256 * (n / 256 % 256) + 65536 * (n / 65536 % 256)
      + 16777216 * (n / 16777216 % 256) = n := by
  omega

lemma Header.toBytes_length (h : Header) : (Header.toBytes h).length = 20 :=
  rfl

lemma Header.fromBytes_toBytes (h : Header) (hwf : Header.wf h) :
    Header.fromBytes (Header.toBytes h) = h := by
  obtain ⟨c, t, d, ks, vs⟩ := h
  obtain ⟨hc, ht, hk, hv⟩ := hwf
  have hc' : c < 4294967296 := hc
  have ht' : t < 4294967296 := ht
  have hk' : ks < 4294967296 := hk
  have hv' : vs < 4294967296 := hv
  simp only [Header.toBytes, u32le, List.cons_append, List.nil_append]
  simp only [Header.fromBytes, u32de, List.getD_cons_zero, List.getD_cons_succ,
    Header.mk.injEq]
  refine ⟨by omega, by omega, ?_, by omega, by omega⟩
  cases d <;> simp

lemma Rec.header_wf (r : Rec) : Header.wf (Rec.header r) := by
  unfold Rec.header Header.wf
  exact ⟨(by omega : (0 : Nat) < 4294967296), (by omega : (0 : Nat) < 4294967296),
    Nat.mod_lt _ (by omega), Nat.mod_lt _ (by omega)⟩

lemma Rec.encode_length (r : Rec) :
    (Rec.encode r).length = 20 + (r.key.length + r.value.length) := by
  simp [Rec.encode, Header.toBytes_length]

lemma readAt_exact (file pre mid post : List Nat) (o n : Nat)
    (hfile : file = pre ++ (mid ++ post)) (ho : o = pre.length)
    (hn : n = mid.length) :
    readAt file o n = mid := by
  subst hfile ho hn
  have h1 : (pre ++ (mid ++ post)).drop pre.length = mid ++ post := by
    rw [← List.append_assoc]
    exact List.drop_left (pre ++ mid) post ▸ by
      rw [List.append_assoc, List.drop_left]
  have h2 : mid.length - ((pre ++ (mid ++ post)).length - pre.length) = 0 := by
    simp [List.length_append]
  rw [readAt, h1, h2, List.take_left, List.replicate, List.append_nil]

lemma writeAt_exact (file pre mid post data : List Nat) (o : Nat)
    (hfile : file = pre ++ (mid ++ post)) (ho : o = pre.length)
    (hlen : data.length = mid.length) :
    writeAt file o data = pre ++ (data ++ post) := by
  subst hfile ho
  have h1 : pre.length - (pre ++ (mid ++ post)).length = 0 := by
    simp [List.length_append]
  have h2 : (pre ++ (mid ++ post)).drop (pre.length + data.length) = post := by
    rw [hlen, ← List.append_assoc, ← List.length_append]
    exact List.drop_left (pre ++ mid) post
  rw [writeAt, h1, h2, List.take_left, List.replicate, List.nil_append]

lemma writeAt_eof (file data : List Nat) :
    writeAt file file.length data = file ++ data := by
  have h2 : file.drop (file.length + data.length) = [] :=
    List.drop_eq_nil_of_le (by omega)
  rw [writeAt, Nat.sub_self, h2, List.take_length, List.replicate,
    List.nil_append, List.append_nil]

lemma isValidUTF8_ascii (l : List Nat) (h : ∀ b ∈ l, b ≤ 127) :
    isValidUTF8 l = true := by
  induction l with
  | nil => rfl
  | cons b l ih =>
    rw [isValidUTF8, isValidUTF8From, if_pos (h b (List.mem_cons_self b l))]
    exact ih (fun x hx => h x (List.mem_cons_of_mem b hx))

lemma lookupIdx_removeIdx (idx : List (List Nat × Nat)) (k : List Nat) :
    lookupIdx (removeIdx idx k) k = none := by
  induction idx with
  | nil => rfl
  | cons p rest ih =>
    obtain ⟨k', o⟩ := p
    by_cases h : k' = k
    · simpa [removeIdx, List.filter, h] using ih
    · simp only [removeIdx, List.filter] at ih ⊢
      rw [show decide ((k', o).1 ≠ k) = true by simp [h]]
      simp only [lookupIdx, if_neg h]
      exact ih

lemma put_eq (db : Database) (k v : List Nat) :
    Database.put db k v =
      ⟨db.file ++ Rec.encode ⟨false, k, v⟩, (k, db.file.length) :: db.index⟩ := by
  simp only [Database.put, writeAt_eof, Entry.toBytes, Rec.encode, Rec.header,
    insertIdx]

lemma Entry.fromBytes_encode (r : Rec) (hwf : Rec.wf r) :
    Entry.fromBytes (Rec.encode r) = some ⟨Rec.header r, r.key, r.value⟩ := by
  obtain ⟨hk, hv, hkl, hvl⟩ := hwf
  have htake : (Rec.encode r).take Header.SIZE = (Rec.header r).toBytes :=
    List.take_left' (Header.toBytes_length _)
  have hdrop : (Rec.encode r).drop Header.SIZE = r.key ++ r.value :=
    List.drop_left' (Header.toBytes_length _)
  have hks : (Rec.header r).key_size = r.key.length := by
    simp only [Rec.header]
    exact Nat.mod_eq_of_lt hkl
  have hdrop2 : (Rec.encode r).drop (Header.SIZE + (Rec.header r).key_size) =
      r.value := by
    rw [hks, Rec.encode, ← List.append_assoc]
    exact List.drop_left' (by simp [Header.toBytes_length, Header.SIZE])
  rw [Entry.fromBytes, htake, Header.fromBytes_toBytes _ (Rec.header_wf r),
    hdrop, hdrop2, hks, List.take_left, fromUtf8, fromUtf8, hk, hv]
  rfl

lemma get_record_raw (db : Database) (k pre post : List Nat) (r : Rec)
    (o : Nat) (hidx : lookupIdx db.index k = some o)
    (hfile : db.file = pre ++ (Rec.encode r ++ post))
    (ho : o = pre.length)
    (hkl : r.key.length < 4294967296) (hvl : r.value.length < 4294967296) :
    Database.get db k =
      (match fromUtf8 r.value with
       | some v => Except.ok v
       | none => Except.error Err.invalidData) := by
  unfold Database.get
  rw [hidx]
  dsimp only
  have hhdr : readAt db.file o Header.SIZE = (Rec.header r).toBytes := by
    refine readAt_exact db.file pre _ (r.key ++ (r.value ++ post)) o
      Header.SIZE ?_ ho (Header.toBytes_length _).symm
    rw [hfile]
    simp [Rec.encode, List.append_assoc]
  rw [hhdr, Header.fromBytes_toBytes _ (Rec.header_wf r)]
  have hks : (Rec.header r).key_size = r.key.length := by
    simp only [Rec.header]; exact Nat.mod_eq_of_lt hkl
  have hvs : (Rec.header r).value_size = r.value.length := by
    simp only [Rec.header]; exact Nat.mod_eq_of_lt hvl
  rw [hks, hvs]
  have hval : readAt db.file (o + r.key.length + Header.SIZE) r.value.length
      = r.value := by
    refine readAt_exact db.file (pre ++ ((Rec.header r).toBytes ++ r.key)) _
      post _ _ ?_ ?_ rfl
    · rw [hfile]
      simp [Rec.encode, List.append_assoc]
    · simp only [List.length_append, Header.toBytes_length, ho, Header.SIZE]
      omega
  rw [hval]

lemma get_record (db : Database) (k pre post : List Nat) (r : Rec) (o : Nat)
    (hidx : lookupIdx db.index k = some o)
    (hfile : db.file = pre ++ (Rec.encode r ++ post))
    (ho : o = pre.length)
    (hkl : r.key.length < 4294967296) (hvl : r.value.length < 4294967296)
    (hv : isValidUTF8 r.value = true) :
    Database.get db k = Except.ok r.value := by
  rw [get_record_raw db k pre post r o hidx hfile ho hkl hvl, fromUtf8, hv]
  rfl

lemma get_record_invalid (db : Database) (k pre post : List Nat) (r : Rec)
    (o : Nat) (hidx : lookupIdx db.index k = some o)
    (hfile : db.file = pre ++ (Rec.encode r ++ post))
    (ho : o = pre.length)
    (hkl : r.key.length < 4294967296) (hvl : r.value.length < 4294967296)
    (hv : isValidUTF8 r.value = false) :
    Database.get db k = Except.error Err.invalidData := by
  rw [get_record_raw db k pre post r o hidx hfile ho hkl hvl, fromUtf8, hv]
  rfl

lemma delete_record (db : Database) (k pre rest : List Nat) (h : Header)
    (o : Nat) (hidx : lookupIdx db.index k = some o)
    (hfile : db.file = pre ++ (Header.toBytes h ++ rest))
    (ho : o = pre.length) (hwf : Header.wf h) :
    Database.delete db k =
      (Except.ok (),
        ⟨pre ++ (Header.toBytes { h with is_deleted := true } ++ rest),
          removeIdx db.index k⟩) := by
  unfold Database.delete
  rw [hidx]
  dsimp only
  have h1 : readAt db.file o Header.SIZE = Header.toBytes h :=
    readAt_exact db.file pre _ rest o Header.SIZE hfile ho
      (Header.toBytes_length h).symm
  rw [h1, Header.fromBytes_toBytes h hwf]
  have h2 : writeAt db.file o (Header.toBytes { h with is_deleted := true }) =
      pre ++ (Header.toBytes { h with is_deleted := true } ++ rest) :=
    writeAt_exact db.file pre _ rest _ o hfile ho
      (by rw [Header.toBytes_length, Header.toBytes_length])
  rw [h2]

lemma loadIndexFrom_stop (file : List Nat) (offset : Nat)
    (idx : List (List Nat × Nat)) (h : file.length ≤ offset) :
    loadIndexFrom file offset idx = some idx := by
  rw [loadIndexFrom]
  rw [dif_neg (by omega)]

lemma loadIndexFrom_step (file : List Nat) (offset : Nat)
    (idx : List (List Nat × Nat)) (h : offset < file.length) :
    loadIndexFrom file offset idx =
      (let header := Header.fromBytes (readAt file offset Header.SIZE)
       let entrySize := Header.SIZE + header.key_size + header.value_size
       match Entry.fromBytes (readAt file offset entrySize) with
       | some entry => loadIndexFrom file (offset + entrySize)
           (insertIdx idx entry.key offset)
       | none => none) := by
  rw [loadIndexFrom]
  rw [dif_pos h]

lemma encodeLog_cons (r : Rec) (rs : List Rec) :
    encodeLog (r :: rs) = Rec.encode r ++ encodeLog rs := by
  simp [encodeLog]

lemma loadIndexFrom_encodeLog (rs : List Rec) (pre : List Nat)
    (idx : List (List Nat × Nat)) (hwf : ∀ r ∈ rs, r.wf) :
    loadIndexFrom (pre ++ encodeLog rs) pre.length idx =
      some (replayFrom rs pre.length idx) := by
  induction rs generalizing pre idx with
  | nil =>
    rw [replayFrom, loadIndexFrom_stop]
    simp [encodeLog]
  | cons r rs ih =>
    obtain ⟨hk, hv, hkl, hvl⟩ := hwf r (List.mem_cons_self r rs)
    rw [encodeLog_cons]
    have hstep := loadIndexFrom_step (pre ++ (Rec.encode r ++ encodeLog rs))
      pre.length idx (by simp [List.length_append, Rec.encode_length])
    rw [hstep]
    dsimp only
    have hhdr : readAt (pre ++ (Rec.encode r ++ encodeLog rs)) pre.length
        Header.SIZE = (Rec.header r).toBytes := by
      refine readAt_exact _ pre _ (r.key ++ (r.value ++ encodeLog rs)) _ _ ?_
        rfl (Header.toBytes_length _).symm
      simp [Rec.encode, List.append_assoc]
    rw [hhdr, Header.fromBytes_toBytes _ (Rec.header_wf r)]
    have hks : (Rec.header r).key_size = r.key.length := by
      simp only [Rec.header]; exact Nat.mod_eq_of_lt hkl
    have hvs : (Rec.header r).value_size = r.value.length := by
      simp only [Rec.header]; exact Nat.mod_eq_of_lt hvl
    rw [hks, hvs]
    have hrec : readAt (pre ++ (Rec.encode r ++ encodeLog rs)) pre.length
        (Header.SIZE + r.key.length + r.value.length) = Rec.encode r := by
      refine readAt_exact _ pre _ (encodeLog rs) _ _ rfl rfl ?_
      rw [Rec.encode_length, Header.SIZE]
      omega
    rw [hrec, Entry.fromBytes_encode r ⟨hk, hv, hkl, hvl⟩]
    dsimp only
    have hoff : pre.length + (Header.SIZE + r.key.length + r.value.length) =
        (pre ++ Rec.encode r).length := by
      rw [List.length_append, Rec.encode_length, Header.SIZE]
      omega
    rw [← List.append_assoc, hoff,
      ih (pre ++ Rec.encode r) (insertIdx idx r.key pre.length)
        (fun x hx => hwf x (List.mem_cons_of_mem r hx)),
      replayFrom]
    congr 2
    rw [List.length_append]

lemma lookupIdx_replayFrom (rs : List Rec) (o : Nat)
    (idx : List (List Nat × Nat)) (k : List Nat) :
    lookupIdx (replayFrom rs o idx) k =
      (match lastFind rs o k with
       | some p => some p.1
       | none => lookupIdx idx k) := by
  induction rs generalizing o idx with
  | nil => rw [replayFrom, lastFind]
  | cons r rs ih =>
    rw [replayFrom, lastFind, ih]
    cases hlf : lastFind rs (o + (Rec.encode r).length) k with
    | some p => rfl
    | none =>
      dsimp only
      by_cases h : r.key = k
      · rw [if_pos h]
        simp [insertIdx, lookupIdx, h]
      · rw [if_neg h]
        simp [insertIdx, lookupIdx, h]

lemma lastFind_decomp (rs : List Rec) (o0 : Nat) (k : List Nat) (o : Nat)
    (r : Rec) (h : lastFind rs o0 k = some (o, r)) :
    r ∈ rs ∧ r.key = k ∧
      ∃ pre post, encodeLog rs = pre ++ (Rec.encode r ++ post) ∧
        o0 + pre.length = o := by
  induction rs generalizing o0 with
  | nil => exact absurd h (by rw [lastFind]; exact Option.noConfusion)
  | cons r1 rs ih =>
    rw [lastFind] at h
    cases hlf : lastFind rs (o0 + (Rec.encode r1).length) k with
    | some p =>
      rw [hlf] at h
      dsimp only at h
      have hp : p = (o, r) := Option.some.inj h
      subst hp
      obtain ⟨hmem, hkey, pre', post', hlog, hoff⟩ := ih _ hlf
      refine ⟨List.mem_cons_of_mem r1 hmem, hkey, Rec.encode r1 ++ pre', post',
        ?_, ?_⟩
      · rw [encodeLog_cons, hlog, List.append_assoc]
      · rw [List.length_append]
        omega
    | none =>
      rw [hlf] at h
      dsimp only at h
      by_cases hk : r1.key = k
      · rw [if_pos hk] at h
        have h2 := Option.some.inj h
        have ho : o0 = o := congrArg Prod.fst h2
        have hr : r1 = r := congrArg Prod.snd h2
        subst ho
        subst hr
        exact ⟨List.mem_cons_self _ _, hk, [], encodeLog rs,
          by rw [encodeLog_cons, List.nil_append], by simp⟩
      · rw [if_neg hk] at h
        exact Option.noConfusion h

lemma Header.toBytes_getD8 (h : Header) :
    (Header.toBytes h).getD 8 0 = if h.is_deleted then 1 else 0 := by
  obtain ⟨c, t, d, ks, vs⟩ := h
  rfl

/-! ### Claim theorems -/

/-- C1, counterexample: the serialized header is not 17 bytes, and a record
with an empty key and empty value does not occupy 17 + 0 + 0 bytes.
`Header::SIZE` is `std::mem::size_of::<Header>()`, which for four `u32`
fields and a `bool` is 20 (17 bytes of fields padded to the alignment 4),
so `to_bytes` returns a 20-byte array and every record occupies
`20 + key_size + value_size` bytes. -/
theorem header_not_17_bytes :
    (Header.toBytes ⟨0, 0, false, 0, 0⟩).length ≠ 17 ∧
    (Entry.toBytes ⟨⟨0, 0, false, 0, 0⟩, [], []⟩).length ≠ 17 + 0 + 0 := by
  constructor <;> decide

/-- C1, amended: the serialized header is exactly 20 bytes
(`size_of::<Header>()` counts 3 bytes of alignment padding), with the fields
written little-endian at consecutive offsets in declared order — checksum at
bytes 0..4, timestamp at 4..8, is_deleted as one byte (0 or 1) at 8,
key_size at 9..13, value_size at 13..17 — followed by three padding bytes
17..20 that are always 0; every on-disk record occupies exactly
20 + key_size + value_size bytes. -/
theorem header_layout (h : Header) (e : Entry) (hwf : Header.wf h) :
    (Header.toBytes h).length = 20 ∧
    u32de (Header.toBytes h) 0 = h.checksum ∧
    u32de (Header.toBytes h) 4 = h.timestamp ∧
    (Header.toBytes h).getD 8 0 = (if h.is_deleted then 1 else 0) ∧
    u32de (Header.toBytes h) 9 = h.key_size ∧
    u32de (Header.toBytes h) 13 = h.value_size ∧
    (Header.toBytes h).drop 17 = [0, 0, 0] ∧
    (Entry.toBytes e).length = 20 + e.key.length + e.value.length := by
  have hrt := Header.fromBytes_toBytes h hwf
  refine ⟨Header.toBytes_length h, congrArg Header.checksum hrt,
    congrArg Header.timestamp hrt, Header.toBytes_getD8 h,
    congrArg Header.key_size hrt, congrArg Header.value_size hrt, ?_, ?_⟩
  · obtain ⟨c, t, d, ks, vs⟩ := h
    rfl
  · rw [Entry.toBytes, List.length_append, List.length_append,
      Header.toBytes_length]
    omega

/-- C1, witness for the amended theorem at a concrete header and entry. -/
theorem header_layout_witness :
    Header.wf ⟨1, 2, true, 3, 4⟩ ∧
    ((Header.toBytes ⟨1, 2, true, 3, 4⟩).length = 20 ∧
      u32de (Header.toBytes ⟨1, 2, true, 3, 4⟩) 0 = 1 ∧
      u32de (Header.toBytes ⟨1, 2, true, 3, 4⟩) 4 = 2 ∧
      (Header.toBytes ⟨1, 2, true, 3, 4⟩).getD 8 0 = (if true then 1 else 0) ∧
      u32de (Header.toBytes ⟨1, 2, true, 3, 4⟩) 9 = 3 ∧
      u32de (Header.toBytes ⟨1, 2, true, 3, 4⟩) 13 = 4 ∧
      (Header.toBytes ⟨1, 2, true, 3, 4⟩).drop 17 = [0, 0, 0] ∧
      (Entry.toBytes ⟨⟨0, 0, false, 1, 2⟩, [5], [6, 7]⟩).length =
        20 + [5].length + [6, 7].length) :=
  ⟨by decide, header_layout ⟨1, 2, true, 3, 4⟩ ⟨⟨0, 0, false, 1, 2⟩, [5], [6, 7]⟩
    (by decide)⟩

/-- C10: header decoding is total and normalizing — for 20-byte input,
`from_bytes` yields `is_deleted = true` exactly when byte 8 is nonzero (any
nonzero flag byte decodes as deleted); `from_bytes (to_bytes h) = h` for
every header; but `to_bytes (from_bytes b)` is not the identity on byte
arrays — it writes flag byte 1 whenever byte 8 was nonzero, as the explicit
20-byte array with flag byte 2 shows. -/
theorem header_decode_total_normalizing :
    (∀ b : List Nat, b.length = Header.SIZE →
      ((Header.fromBytes b).is_deleted = true ↔ b.getD 8 0 ≠ 0)) ∧
    (∀ h : Header, Header.wf h → Header.fromBytes (Header.toBytes h) = h) ∧
    (∀ b : List Nat, b.length = Header.SIZE →
      (Header.toBytes (Header.fromBytes b)).getD 8 0 =
        if b.getD 8 0 ≠ 0 then 1 else 0) ∧
    Header.toBytes (Header.fromBytes
        [0, 0, 0, 0, 0, 0, 0, 0, 2, 0, 0, 0, 0, 0, 0, 0, 0, 0, 0, 0]) ≠
      [0, 0, 0, 0, 0, 0, 0, 0, 2, 0, 0, 0, 0, 0, 0, 0, 0, 0, 0, 0] := by
  refine ⟨?_, Header.fromBytes_toBytes, ?_, by decide⟩
  · intro b _
    simp [Header.fromBytes]
  · intro b _
    rw [Header.toBytes_getD8]
    simp [Header.fromBytes]

/-- C10, witness: the round-trip clause applied at a concrete header, with
its hypotheses discharged there. -/
theorem header_decode_total_normalizing_witness :
    Header.wf ⟨5, 6, true, 7, 8⟩ ∧
    Header.fromBytes (Header.toBytes ⟨5, 6, true, 7, 8⟩) = ⟨5, 6, true, 7, 8⟩ :=
  ⟨by decide,
    header_decode_total_normalizing.2.1 ⟨5, 6, true, 7, 8⟩ (by decide)⟩

lemma Entry.fromBytes_split (h : Header) (ks vs : List Nat)
    (hwf : Header.wf h) (hk : ks.length = h.key_size) :
    Entry.fromBytes (Header.toBytes h ++ (ks ++ vs)) =
      (match fromUtf8 ks, fromUtf8 vs with
       | some k, some v => some ⟨h, k, v⟩
       | _, _ => none) := by
  have htake : (Header.toBytes h ++ (ks ++ vs)).take Header.SIZE =
      Header.toBytes h :=
    List.take_left' (Header.toBytes_length h)
  have hdrop : (Header.toBytes h ++ (ks ++ vs)).drop Header.SIZE = ks ++ vs :=
    List.drop_left' (Header.toBytes_length h)
  have hdrop2 : (Header.toBytes h ++ (ks ++ vs)).drop
      (Header.SIZE + ks.length) = vs := by
    rw [← List.append_assoc]
    exact List.drop_left' (by simp [Header.toBytes_length, Header.SIZE])
  rw [Entry.fromBytes]
  rw [htake, Header.fromBytes_toBytes h hwf, hdrop, ← hk, List.take_left,
    hdrop2]

/-- C9, counterexample: on a record whose key byte `0xFF` is not valid UTF-8,
`Entry::from_bytes` does not fail with an InvalidData error — it has no error
channel at all and aborts: the `String::from_utf8(..).unwrap()` panic, `none`
in the model.  The spec-described decoder (`Entry.fromBytesSpec`) would
return a decoding error on the same input. -/
theorem entry_decode_aborts_on_invalid_utf8 :
    Entry.fromBytes
        (Header.toBytes ⟨0, 0, false, 1, 1⟩ ++ ([255] ++ [97])) = none ∧
    Entry.fromBytesSpec
        (Header.toBytes ⟨0, 0, false, 1, 1⟩ ++ ([255] ++ [97])) =
      Except.error () ∧
    isValidUTF8 [255] = false := by
  exact ⟨rfl, rfl, rfl⟩

/-- C9, amended: `Entry::from_bytes` treats key and value bytes as UTF-8 and,
whenever either is not valid UTF-8, it panics/aborts via `unwrap` (modelled
`none`) rather than returning an error; `Database::get`, in contrast, does
fail with an InvalidData error when the stored value bytes of the record it
reads do not decode as UTF-8. -/
theorem entry_decode_panics_get_invalid_data (h : Header) (ks vs : List Nat)
    (hwf : Header.wf h) (hk : ks.length = h.key_size)
    (hinv : isValidUTF8 ks = false ∨ isValidUTF8 vs = false) :
    Entry.fromBytes (Header.toBytes h ++ (ks ++ vs)) = none ∧
    ∀ (db : Database) (k pre post : List Nat) (r : Rec) (o : Nat),
      lookupIdx db.index k = some o →
      db.file = pre ++ (Rec.encode r ++ post) →
      o = pre.length →
      r.key.length < 4294967296 → r.value.length < 4294967296 →
      isValidUTF8 r.value = false →
      Database.get db k = Except.error Err.invalidData := by
  constructor
  · rw [Entry.fromBytes_split h ks vs hwf hk]
    rcases hinv with hi | hi
    · have hn : fromUtf8 ks = none := by rw [fromUtf8, hi]; rfl
      rw [hn]
    · have hn : fromUtf8 vs = none := by rw [fromUtf8, hi]; rfl
      rw [hn]
      cases fromUtf8 ks <;> rfl
  · intro db k pre post r o h1 h2 h3 h4 h5 h6
    exact get_record_invalid db k pre post r o h1 h2 h3 h4 h5 h6

/-- C9, witness: the amended theorem applied at a concrete record whose key
byte `0xFF` is invalid UTF-8. -/
theorem entry_decode_panics_witness :
    (Header.wf ⟨0, 0, false, 1, 1⟩ ∧
      ([255] : List Nat).length = (⟨0, 0, false, 1, 1⟩ : Header).key_size ∧
      (isValidUTF8 [255] = false ∨ isValidUTF8 [97] = false)) ∧
    Entry.fromBytes
      (Header.toBytes ⟨0, 0, false, 1, 1⟩ ++ ([255] ++ [97])) = none :=
  ⟨⟨by decide, by decide, Or.inl (by decide)⟩,
    (entry_decode_panics_get_invalid_data ⟨0, 0, false, 1, 1⟩ [255] [97]
      (by decide) (by decide) (Or.inl (by decide))).1⟩

lemma openDb_single (r : Rec) (hwf : Rec.wf r) :
    Database.openDb (Rec.encode r) = some ⟨Rec.encode r, [(r.key, 0)]⟩ := by
  have henc : encodeLog [r] = Rec.encode r := by simp [encodeLog]
  have hload := loadIndexFrom_encodeLog [r] [] []
    (fun x hx => by rw [List.mem_singleton] at hx; rw [hx]; exact hwf)
  simp only [List.nil_append, List.length_nil] at hload
  rw [henc] at hload
  rw [Database.openDb, hload]
  rfl

/-- C3: round-trip — for every key and value (any engine state), a `put`
followed by `get` of the same key returns exactly the value that was put.
The hypotheses restrict to what a Rust caller can supply: the value is a
`String` (valid UTF-8) and both byte lengths fit in a `u32`. -/
theorem put_get_roundtrip (db : Database) (k v : List Nat)
    (hv : isValidUTF8 v = true) (hkl : k.length < 4294967296)
    (hvl : v.length < 4294967296) :
    Database.get (Database.put db k v) k = Except.ok v := by
  rw [put_eq]
  exact get_record _ k db.file [] ⟨false, k, v⟩ db.file.length
    (by rw [lookupIdx, if_pos rfl]) (by simp) rfl hkl hvl hv

/-- C3, witness: the round-trip at a value of one million characters. -/
theorem put_get_roundtrip_witness :
    isValidUTF8 (List.replicate 1000000 120) = true ∧
    Database.get (Database.put ⟨[], []⟩ [107] (List.replicate 1000000 120))
      [107] = Except.ok (List.replicate 1000000 120) := by
  have hv : isValidUTF8 (List.replicate 1000000 120) = true :=
    isValidUTF8_ascii _ (fun b hb => by
      rw [List.eq_of_mem_replicate hb]
      omega)
  exact ⟨hv, put_get_roundtrip ⟨[], []⟩ [107] _ hv (by decide)
    (by rw [List.length_replicate]; omega)⟩

/-- C4: overwrite / last-write-wins — `put(k,v1); put(k,v2); get(k)` returns
`v2` (never the superseded `v1`), and puts to two distinct keys leave both
keys independently retrievable. -/
theorem overwrite_and_independent_keys (db : Database)
    (k v1 v2 k2 k3 w2 w3 : List Nat)
    (hv2 : isValidUTF8 v2 = true) (hkl : k.length < 4294967296)
    (hv2l : v2.length < 4294967296)
    (hw2 : isValidUTF8 w2 = true) (hw3 : isValidUTF8 w3 = true)
    (hk2l : k2.length < 4294967296) (hw2l : w2.length < 4294967296)
    (hk3l : k3.length < 4294967296) (hw3l : w3.length < 4294967296)
    (hne : k2 ≠ k3) :
    Database.get (Database.put (Database.put db k v1) k v2) k =
      Except.ok v2 ∧
    Database.get (Database.put (Database.put db k2 w2) k3 w3) k2 =
      Except.ok w2 ∧
    Database.get (Database.put (Database.put db k2 w2) k3 w3) k3 =
      Except.ok w3 := by
  refine ⟨?_, ?_, ?_⟩
  · rw [put_eq, put_eq]
    exact get_record _ k (db.file ++ Rec.encode ⟨false, k, v1⟩) []
      ⟨false, k, v2⟩ _ (by rw [lookupIdx, if_pos rfl]) (by simp) rfl
      hkl hv2l hv2
  · rw [put_eq, put_eq]
    exact get_record _ k2 db.file (Rec.encode ⟨false, k3, w3⟩)
      ⟨false, k2, w2⟩ _
      (by rw [lookupIdx, if_neg (fun hh => hne hh.symm), lookupIdx,
        if_pos rfl])
      (by simp) rfl hk2l hw2l hw2
  · rw [put_eq, put_eq]
    exact get_record _ k3 (db.file ++ Rec.encode ⟨false, k2, w2⟩) []
      ⟨false, k3, w3⟩ _ (by rw [lookupIdx, if_pos rfl]) (by simp) rfl
      hk3l hw3l hw3

/-- C4, witness at concrete keys and values. -/
theorem overwrite_and_independent_keys_witness :
    ([98] : List Nat) ≠ [99] ∧
    Database.get (Database.put (Database.put ⟨[], []⟩ [97] [48]) [97] [49])
      [97] = Except.ok [49] ∧
    Database.get (Database.put (Database.put ⟨[], []⟩ [98] [50]) [99] [51])
      [98] = Except.ok [50] ∧
    Database.get (Database.put (Database.put ⟨[], []⟩ [98] [50]) [99] [51])
      [99] = Except.ok [51] :=
  ⟨by decide, overwrite_and_independent_keys ⟨[], []⟩ [97] [48] [49] [98] [99]
    [50] [51] (by decide) (by decide) (by decide) (by decide) (by decide)
    (by decide) (by decide) (by decide) (by decide) (by decide)⟩

/-- C6: in-process deletion — `put(k,v); delete(k); get(k)` on the same
engine instance fails with NotFound: `delete` removes the key from the
in-memory index and `get` fails with NotFound on any key absent from it. -/
theorem put_delete_get_notfound (db : Database) (k v : List Nat) :
    (Database.delete (Database.put db k v) k).1 = Except.ok () ∧
    Database.get (Database.delete (Database.put db k v) k).2 k =
      Except.error Err.notFound := by
  rw [put_eq]
  have hidx : lookupIdx ((k, db.file.length) :: db.index) k =
      some db.file.length := by
    rw [lookupIdx, if_pos rfl]
  unfold Database.delete
  rw [hidx]
  refine ⟨rfl, ?_⟩
  unfold Database.get
  rw [lookupIdx_removeIdx]

/-- C7: deletion on a missing key — for any key absent from the index,
`delete` fails with NotFound and leaves the whole state (log file bytes and
index) unchanged. -/
theorem delete_missing_notfound_noop (db : Database) (k : List Nat)
    (h : lookupIdx db.index k = none) :
    Database.delete db k = (Except.error Err.notFound, db) := by
  unfold Database.delete
  rw [h]

/-- C7, witness on an empty database. -/
theorem delete_missing_notfound_noop_witness :
    lookupIdx ([] : List (List Nat × Nat)) [] = none ∧
    Database.delete ⟨[], []⟩ [] = (Except.error Err.notFound, ⟨[], []⟩) :=
  ⟨rfl, delete_missing_notfound_noop ⟨[], []⟩ [] rfl⟩

/-- C8: delete frame property — a successful `delete(k)` rewrites only the
header at `k`'s indexed offset: the new file is the old one with that header
replaced by the same header with `is_deleted = 1`; the rewritten header
differs from the old header bytes only at flag byte 8; the file length is
unchanged, and everything before and after the header (including the
record's key/value payload) is byte-identical.  `put` only ever appends at
end of file, so this header rewrite is the only mutation of
previously-written bytes the engine performs. -/
theorem delete_frame (db : Database) (k pre rest : List Nat) (h : Header)
    (o : Nat) (hidx : lookupIdx db.index k = some o)
    (hfile : db.file = pre ++ (Header.toBytes h ++ rest))
    (ho : o = pre.length) (hwf : Header.wf h) :
    (Database.delete db k).1 = Except.ok () ∧
    (Database.delete db k).2.file =
      pre ++ (Header.toBytes { h with is_deleted := true } ++ rest) ∧
    (Database.delete db k).2.file.length = db.file.length ∧
    Header.toBytes { h with is_deleted := true } =
      (Header.toBytes h).take 8 ++ ([1] ++ (Header.toBytes h).drop 9) ∧
    ∀ (db' : Database) (k' v' : List Nat),
      (Database.put db' k' v').file = db'.file ++ Rec.encode ⟨false, k', v'⟩
    := by
  have hd := delete_record db k pre rest h o hidx hfile ho hwf
  rw [hd]
  refine ⟨rfl, rfl, ?_, ?_, ?_⟩
  · rw [hfile]
    simp [List.length_append, Header.toBytes_length]
  · obtain ⟨c, t, d, ks, vs⟩ := h
    rfl
  · intro db' k' v'
    rw [put_eq]

/-- C8, witness: deleting the only record of a one-record database. -/
theorem delete_frame_witness :
    (lookupIdx [([97], 0)] [97] = some 0 ∧ Header.wf ⟨0, 0, false, 1, 1⟩) ∧
    (Database.delete
        ⟨Header.toBytes ⟨0, 0, false, 1, 1⟩ ++ [97, 98], [([97], 0)]⟩
        [97]).2.file =
      [] ++ (Header.toBytes ⟨0, 0, true, 1, 1⟩ ++ [97, 98]) := by
  refine ⟨⟨by decide, by decide⟩, ?_⟩
  exact (delete_frame ⟨Header.toBytes ⟨0, 0, false, 1, 1⟩ ++ [97, 98],
    [([97], 0)]⟩ [97] [] [97, 98] ⟨0, 0, false, 1, 1⟩ 0 (by decide) rfl rfl
    (by decide)).2.1

/-- C2: deleted-key resurrection on reopen — after `put(k,v); delete(k)` the
in-process `get(k)` fails with NotFound, but replay inserts the deleted
record into the index exactly like a live one and `get` never consults the
`is_deleted` flag, so after close and reopen of the same log, `get(k)`
succeeds and returns `v`. -/
theorem deleted_key_resurrected_on_reopen (k v : List Nat)
    (hk : isValidUTF8 k = true) (hv : isValidUTF8 v = true)
    (hkl : k.length < 4294967296) (hvl : v.length < 4294967296) :
    (Database.delete (Database.put ⟨[], []⟩ k v) k).1 = Except.ok () ∧
    Database.get (Database.delete (Database.put ⟨[], []⟩ k v) k).2 k =
      Except.error Err.notFound ∧
    ∃ db', Database.openDb
        (Database.close
          (Database.delete (Database.put ⟨[], []⟩ k v) k).2).file =
        some db' ∧
      Database.get db' k = Except.ok v := by
  have hput : Database.put ⟨[], []⟩ k v =
      ⟨Rec.encode ⟨false, k, v⟩, [(k, 0)]⟩ := by
    rw [put_eq]
    rfl
  rw [hput]
  have hdel := delete_record ⟨Rec.encode ⟨false, k, v⟩, [(k, 0)]⟩ k []
    (k ++ v) (Rec.header ⟨false, k, v⟩) 0
    (by rw [lookupIdx, if_pos rfl]) rfl rfl (Rec.header_wf _)
  rw [hdel]
  refine ⟨rfl, ?_, ?_⟩
  · unfold Database.get
    rw [lookupIdx_removeIdx]
  · refine ⟨⟨Rec.encode ⟨true, k, v⟩, [(k, 0)]⟩, ?_, ?_⟩
    · exact openDb_single ⟨true, k, v⟩ ⟨hk, hv, hkl, hvl⟩
    · exact get_record ⟨Rec.encode ⟨true, k, v⟩, [(k, 0)]⟩ k [] []
        ⟨true, k, v⟩ 0 (by rw [lookupIdx, if_pos rfl]) (by simp) rfl
        hkl hvl hv

/-- C2, witness at a concrete key and value. -/
theorem deleted_key_resurrected_on_reopen_witness :
    (isValidUTF8 [107] = true ∧ isValidUTF8 [118, 97] = true) ∧
    (Database.delete (Database.put ⟨[], []⟩ [107] [118, 97]) [107]).1 =
      Except.ok () ∧
    Database.get
      (Database.delete (Database.put ⟨[], []⟩ [107] [118, 97]) [107]).2
      [107] = Except.error Err.notFound ∧
    ∃ db', Database.openDb
        (Database.close
          (Database.delete
            (Database.put ⟨[], []⟩ [107] [118, 97]) [107]).2).file =
        some db' ∧
      Database.get db' [107] = Except.ok [118, 97] :=
  ⟨⟨by decide, by decide⟩,
    deleted_key_resurrected_on_reopen [107] [118, 97] (by decide) (by decide)
      (by decide) (by decide)⟩

/-- C5: replay-ordering index invariant — opening a log always succeeds on
well-formed records, the rebuilt index maps `k` to the offset of the last
record for `k` in the log (replay proceeds offset-ascending and overwrites
the map entry, so a later record at a larger offset wins), and `get`
resolves to that last record's value; in particular a single
`put(key1, value1)` followed by close and reopen yields `get(key1) =
value1`. -/
theorem replay_last_write_wins (rs : List Rec) (k : List Nat)
    (hwf : ∀ r ∈ rs, r.wf) :
    (∃ db, Database.openDb (encodeLog rs) = some db ∧
      lookupIdx db.index k = Option.map Prod.fst (lastFind rs 0 k) ∧
      ∀ o r, lastFind rs 0 k = some (o, r) →
        Database.get db k = Except.ok r.value) ∧
    (∀ k1 v1 : List Nat, isValidUTF8 k1 = true → isValidUTF8 v1 = true →
      k1.length < 4294967296 → v1.length < 4294967296 →
      ∃ db1, Database.openDb
          (Database.close (Database.put ⟨[], []⟩ k1 v1)).file = some db1 ∧
        Database.get db1 k1 = Except.ok v1) := by
  constructor
  · have hload := loadIndexFrom_encodeLog rs [] [] hwf
    simp only [List.nil_append, List.length_nil] at hload
    have hlook : lookupIdx (replayFrom rs 0 []) k =
        Option.map Prod.fst (lastFind rs 0 k) := by
      rw [lookupIdx_replayFrom]
      cases lastFind rs 0 k <;> rfl
    refine ⟨⟨encodeLog rs, replayFrom rs 0 []⟩, ?_, hlook, ?_⟩
    · rw [Database.openDb, hload]
    · intro o r hlf
      obtain ⟨hmem, hkey, pre, post, hlog, hoff⟩ :=
        lastFind_decomp rs 0 k o r hlf
      obtain ⟨hk1, hv1, hkl1, hvl1⟩ := hwf r hmem
      refine get_record _ k pre post r o ?_ hlog (by omega) hkl1 hvl1 hv1
      rw [hlook, hlf]
      rfl
  · intro k1 v1 hk1 hv1 hkl1 hvl1
    have hput : Database.put ⟨[], []⟩ k1 v1 =
        ⟨Rec.encode ⟨false, k1, v1⟩, [(k1, 0)]⟩ := by
      rw [put_eq]
      rfl
    rw [hput]
    refine ⟨⟨Rec.encode ⟨false, k1, v1⟩, [(k1, 0)]⟩, ?_, ?_⟩
    · exact openDb_single ⟨false, k1, v1⟩ ⟨hk1, hv1, hkl1, hvl1⟩
    · exact get_record ⟨Rec.encode ⟨false, k1, v1⟩, [(k1, 0)]⟩ k1 [] []
        ⟨false, k1, v1⟩ 0 (by rw [lookupIdx, if_pos rfl]) (by simp) rfl
        hkl1 hvl1 hv1

/-- C5, witness: a two-record log updating one key — the index maps the key
to the second record's offset 22 and `get` returns the second value — and
the concrete `put("key1","value1"); close; reopen; get` instance. -/
theorem replay_last_write_wins_witness :
    (∀ r ∈ [(⟨false, [107], [97]⟩ : Rec), ⟨false, [107], [98]⟩], r.wf) ∧
    (∃ db, Database.openDb
        (encodeLog [(⟨false, [107], [97]⟩ : Rec), ⟨false, [107], [98]⟩]) =
        some db ∧
      lookupIdx db.index [107] =
        Option.map Prod.fst
          (lastFind [(⟨false, [107], [97]⟩ : Rec), ⟨false, [107], [98]⟩]
            0 [107]) ∧
      ∀ o r, lastFind [(⟨false, [107], [97]⟩ : Rec), ⟨false, [107], [98]⟩]
          0 [107] = some (o, r) →
        Database.get db [107] = Except.ok r.value) ∧
    (∃ db1, Database.openDb
        (Database.close
          (Database.put ⟨[], []⟩ [107, 101, 121, 49]
            [118, 97, 108, 117, 101, 49])).file = some db1 ∧
      Database.get db1 [107, 101, 121, 49] =
        Except.ok [118, 97, 108, 117, 101, 49]) := by
  have h := replay_last_write_wins
    [(⟨false, [107], [97]⟩ : Rec), ⟨false, [107], [98]⟩] [107] (by decide)
  exact ⟨by decide, h.1,
    h.2 [107, 101, 121, 49] [118, 97, 108, 117, 101, 49] (by decide)
      (by decide) (by decide) (by decide)⟩

end Rustore
